import Mathlib

/-!
Shallow embedding of the Missionaries and Cannibals solver (`src/main.cpp`).

The C++ program consists of a `State` struct, a safety predicate `isSafe`,
a successor generator `getValidMoves`, a breadth-first search
`solveMissionariesCannibals` over a FIFO queue with a visited set, and a
`main` wrapper that seeds the initial state from command-line arguments.

The BFS `while` loop is embedded as a fuel-indexed recursion `bfs`; `none`
models fuel exhaustion.  `solveMissionariesCannibals` runs `bfs` with a fuel
bound large enough that, for every initial state with non-negative counts,
the fuel is proven never to run out (see the termination theorem), so the
`Option` faithfully reproduces the C++ function's result on all such inputs.
-/

/-- The C++ `struct State` from `src/main.cpp` (lines 15–29): four `int` counts and
the boat flag, with the C++ member defaults. -/
structure State where
  leftMissionaries : Int := 0
  leftCannibals : Int := 0
  rightMissionaries : Int := 0
  rightCannibals : Int := 0
  boatOnLeft : Bool := true
deriving DecidableEq, Repr

/-- The safety predicate `isSafe` (lines 100–104): on both banks, if there are any missionaries
they are not outnumbered by cannibals. -/
def isSafe (state : State) : Bool :=
  (!(decide (state.leftMissionaries ≠ 0) &&
     decide (state.leftMissionaries < state.leftCannibals))) &&
  (!(decide (state.rightMissionaries ≠ 0) &&
     decide (state.rightMissionaries < state.rightCannibals)))

/-- The state built in the `boatOnLeft` branch of `getValidMoves`
(lines 123–128): move `m` missionaries and `c` cannibals left → right. -/
def moveLeftToRight (currentState : State) (m c : Int) : State :=
  { currentState with
    leftMissionaries := currentState.leftMissionaries - m
    leftCannibals := currentState.leftCannibals - c
    rightMissionaries := currentState.rightMissionaries + m
    rightCannibals := currentState.rightCannibals + c
    boatOnLeft := false }

/-- The state built in the `else` branch of `getValidMoves`
(lines 139–144): move `m` missionaries and `c` cannibals right → left. -/
def moveRightToLeft (currentState : State) (m c : Int) : State :=
  { currentState with
    leftMissionaries := currentState.leftMissionaries + m
    leftCannibals := currentState.leftCannibals + c
    rightMissionaries := currentState.rightMissionaries - m
    rightCannibals := currentState.rightCannibals - c
    boatOnLeft := true }

/-- The move generator `getValidMoves` (lines 117–154).  The C++ loops `for (int m = 0;
m <= bank; m++)` are embedded as `List.range (bank + 1).toNat`: when the
bank count is negative the loop body never runs, and `(bank + 1).toNat = 0`
likewise yields no iterations. -/
def getValidMoves (currentState : State) : List State :=
  if currentState.boatOnLeft then
    (List.range (currentState.leftMissionaries + 1).toNat).flatMap fun (m : Nat) =>
      (List.range (currentState.leftCannibals + 1).toNat).filterMap fun (c : Nat) =>
        if 1 ≤ (m : Int) + (c : Int) ∧ (m : Int) + (c : Int) ≤ 2 then
          let newState := moveLeftToRight currentState (m : Int) (c : Int)
          if isSafe newState then some newState else none
        else none
  else
    (List.range (currentState.rightMissionaries + 1).toNat).flatMap fun (m : Nat) =>
      (List.range (currentState.rightCannibals + 1).toNat).filterMap fun (c : Nat) =>
        if 1 ≤ (m : Int) + (c : Int) ∧ (m : Int) + (c : Int) ≤ 2 then
          let newState := moveRightToLeft currentState (m : Int) (c : Int)
          if isSafe newState then some newState else none
        else none

/-- The goal test of the BFS loop (line 192): left bank empty and the boat
not on the left. -/
def isGoal (s : State) : Bool :=
  decide (s.leftMissionaries = 0) && decide (s.leftCannibals = 0) && !s.boatOnLeft

/-- The `while (!statesToExplore.empty())` loop of
`solveMissionariesCannibals` (lines 179–201), with explicit fuel.
`queue` is the FIFO `statesToExplore`, `explored` the visited set
`exploredStates` (as a duplicate-free list).  Returns the C++ result
together with the final visited set; `none` means the fuel ran out. -/
def bfs : Nat → List State → List State → Option (Bool × List State)
  | 0, _, _ => none
  | _ + 1, [], explored => some (false, explored)
  | fuel + 1, currentState :: rest, explored =>
    if currentState ∈ explored then
      bfs fuel rest explored
    else
      let explored' := currentState :: explored
      if isGoal currentState then
        some (true, explored')
      else
        bfs fuel
          (rest ++ (getValidMoves currentState).filter fun mv =>
            decide (mv ∉ explored'))
          explored'

/-- Total missionaries of a state; constant along the search. -/
def totalMissionaries (s : State) : Int :=
  s.leftMissionaries + s.rightMissionaries

/-- Total cannibals of a state; constant along the search. -/
def totalCannibals (s : State) : Int :=
  s.leftCannibals + s.rightCannibals

/-- Size of the search space reachable from `s`:
`2 * (M+1) * (C+1)` states. -/
def stateSpaceSize (s : State) : Nat :=
  2 * ((totalMissionaries s).toNat + 1) * ((totalCannibals s).toNat + 1)

/-- Fuel that is provably sufficient for the BFS to run to completion from
any initial state with non-negative counts. -/
def fuelBound (s : State) : Nat :=
  2 + (((totalMissionaries s).toNat + 1) * ((totalCannibals s).toNat + 1) + 1)
      * stateSpaceSize s

/-- The search entry point `solveMissionariesCannibals` (lines 166–204): BFS from the initial
state.  `some b` is the C++ return value `b`; `none` would mean the fuel
bound was insufficient, which the termination theorem rules out for
non-negative inputs. -/
def solveMissionariesCannibals (initialState : State) : Option Bool :=
  (bfs (fuelBound initialState) [initialState] []).map Prod.fst

/-- The initial state produced by the argument-handling `switch` in `main`
(lines 55–79), given the already-parsed numeric arguments.  `none` models
the early `return 1` on a negative count.  Two arguments: the cannibal
count (`argv[2]`) is assigned and validated first, then fall-through
assigns and validates the missionary count (`argv[1]`).  One argument:
only the missionary count is assigned.  Any other argument count: the
3/3 default. -/
def initialStateFor (args : List Int) : Option State :=
  match args with
  | [a1, a2] =>
    let s1 : State := { leftCannibals := a2 }
    if s1.leftCannibals < 0 then none
    else
      let s2 : State := { s1 with leftMissionaries := a1 }
      if s2.leftMissionaries < 0 then none else some s2
  | [a1] =>
    let s1 : State := { leftMissionaries := a1 }
    if s1.leftMissionaries < 0 then none else some s1
  | _ => some { leftMissionaries := 3, leftCannibals := 3 }

/-- The wrapper `main` (lines 55–88) on already-parsed numeric arguments: the exit
status, paired with `none` when the search never ran (negative-count early
exit) and `some r` when `solveMissionariesCannibals` ran with result `r`. -/
def runMain (args : List Int) : Nat × Option (Option Bool) :=
  match initialStateFor args with
  | none => (1, none)
  | some s => (0, some (solveMissionariesCannibals s))

/-! ## Basic facts about the move generator -/

/-- Any member of `getValidMoves s` arises from a crossing of `m`
missionaries and `c` cannibals with `1 ≤ m + c ≤ 2`, taken from the bank
the boat is on, and passed the `isSafe` filter. -/
theorem of_mem_getValidMoves {s t : State} (h : t ∈ getValidMoves s) :
    ∃ m c : Int, 0 ≤ m ∧ 0 ≤ c ∧ 1 ≤ m + c ∧ m + c ≤ 2 ∧ isSafe t = true ∧
      ((s.boatOnLeft = true ∧ m ≤ s.leftMissionaries ∧ c ≤ s.leftCannibals ∧
          t = moveLeftToRight s m c) ∨
        (s.boatOnLeft = false ∧ m ≤ s.rightMissionaries ∧ c ≤ s.rightCannibals ∧
          t = moveRightToLeft s m c)) := by
  unfold getValidMoves at h
  by_cases hb : s.boatOnLeft = true
  · rw [if_pos hb] at h
    rw [List.mem_flatMap] at h
    obtain ⟨m, hm, h⟩ := h
    rw [List.mem_filterMap] at h
    obtain ⟨c, hc, h⟩ := h
    rw [List.mem_range] at hm hc
    dsimp only at h
    split_ifs at h with h1 h2
    · rw [Option.some_inj] at h
      refine ⟨m, c, by omega, by omega, h1.1, h1.2, ?_, Or.inl ⟨hb, by omega, by omega, h.symm⟩⟩
      rw [← h]; exact h2
  · rw [if_neg hb] at h
    rw [List.mem_flatMap] at h
    obtain ⟨m, hm, h⟩ := h
    rw [List.mem_filterMap] at h
    obtain ⟨c, hc, h⟩ := h
    rw [List.mem_range] at hm hc
    dsimp only at h
    split_ifs at h with h1 h2
    · rw [Option.some_inj] at h
      refine ⟨m, c, by omega, by omega, h1.1, h1.2, ?_,
        Or.inr ⟨by simpa using hb, by omega, by omega, h.symm⟩⟩
      rw [← h]; exact h2

/-- Every generated successor passes the safety filter. -/
theorem isSafe_of_mem_getValidMoves {s t : State} (h : t ∈ getValidMoves s) :
    isSafe t = true :=
  (of_mem_getValidMoves h).choose_spec.choose_spec.2.2.2.2.1

/-- Every generated successor has the boat on the opposite side, hence
differs from the input state. -/
theorem boat_flips_of_mem_getValidMoves {s t : State} (h : t ∈ getValidMoves s) :
    t.boatOnLeft = !s.boatOnLeft ∧ t ≠ s := by
  obtain ⟨m, c, _, _, _, _, _, hcase⟩ := of_mem_getValidMoves h
  rcases hcase with ⟨hb, _, _, rfl⟩ | ⟨hb, _, _, rfl⟩
  · refine ⟨by rw [hb]; rfl, fun he => ?_⟩
    have hob := congrArg State.boatOnLeft he
    rw [hb] at hob
    simp [moveLeftToRight] at hob
  · refine ⟨by rw [hb]; rfl, fun he => ?_⟩
    have hob := congrArg State.boatOnLeft he
    rw [hb] at hob
    simp [moveRightToLeft] at hob

/-- One crossing conserves the totals on the two banks. -/
theorem totals_of_mem_getValidMoves {s t : State} (h : t ∈ getValidMoves s) :
    totalMissionaries t = totalMissionaries s ∧
      totalCannibals t = totalCannibals s := by
  obtain ⟨m, c, _, _, _, _, _, hcase⟩ := of_mem_getValidMoves h
  rcases hcase with ⟨_, _, _, rfl⟩ | ⟨_, _, _, rfl⟩ <;>
    constructor <;>
    simp [totalMissionaries, totalCannibals, moveLeftToRight, moveRightToLeft]

/-- The finite space the search lives in: non-negative counts with fixed
totals `M` and `C`. -/
def InSpace (M C : Int) (s : State) : Prop :=
  0 ≤ s.leftMissionaries ∧ 0 ≤ s.leftCannibals ∧
    0 ≤ s.rightMissionaries ∧ 0 ≤ s.rightCannibals ∧
    totalMissionaries s = M ∧ totalCannibals s = C

/-- One crossing stays inside the finite space. -/
theorem inSpace_of_mem_getValidMoves {M C : Int} {s t : State}
    (hs : InSpace M C s) (h : t ∈ getValidMoves s) : InSpace M C t := by
  obtain ⟨m, c, h0m, h0c, _, _, _, hcase⟩ := of_mem_getValidMoves h
  obtain ⟨hs1, hs2, hs3, hs4, hs5, hs6⟩ := hs
  rw [totalMissionaries] at hs5
  rw [totalCannibals] at hs6
  rcases hcase with ⟨_, hm, hc, rfl⟩ | ⟨_, hm, hc, rfl⟩ <;>
    refine ⟨?_, ?_, ?_, ?_, ?_, ?_⟩ <;>
    simp only [moveLeftToRight, moveRightToLeft, totalMissionaries, totalCannibals] <;>
    omega

/-- A `flatMap` whose pieces all have length at most `n` has length at most
`l.length * n`. -/
theorem length_flatMap_le_of_forall {α β : Type} (l : List α) (f : α → List β)
    (n : Nat) (h : ∀ a ∈ l, (f a).length ≤ n) :
    (l.flatMap f).length ≤ l.length * n := by
  induction l with
  | nil => simp
  | cons a l ih =>
    have ha := h a (List.mem_cons_self a l)
    have hl := ih fun x hx => h x (List.mem_cons_of_mem _ hx)
    calc ((a :: l).flatMap f).length = (f a).length + (l.flatMap f).length := by
          simp [List.flatMap_cons]
      _ ≤ n + l.length * n := Nat.add_le_add ha hl
      _ = (a :: l).length * n := by simp [List.length_cons]; ring

/-- Inside the space with totals `M` and `C`, the move generator produces at
most `(M+1) * (C+1)` successors (one per loop iteration at most). -/
theorem getValidMoves_length_le {M C : Int} {s : State} (hs : InSpace M C s) :
    (getValidMoves s).length ≤ (M.toNat + 1) * (C.toNat + 1) := by
  obtain ⟨hs1, hs2, hs3, hs4, hs5, hs6⟩ := hs
  rw [totalMissionaries] at hs5
  rw [totalCannibals] at hs6
  unfold getValidMoves
  split_ifs with hb
  · calc ((List.range (s.leftMissionaries + 1).toNat).flatMap _).length
        ≤ (List.range (s.leftMissionaries + 1).toNat).length
            * (s.leftCannibals + 1).toNat := by
          refine length_flatMap_le_of_forall _ _ _ fun m _ => ?_
          calc ((List.range (s.leftCannibals + 1).toNat).filterMap _).length
              ≤ (List.range (s.leftCannibals + 1).toNat).length :=
                List.length_filterMap_le _ _
            _ = (s.leftCannibals + 1).toNat := List.length_range _
      _ = (s.leftMissionaries + 1).toNat * (s.leftCannibals + 1).toNat := by
          rw [List.length_range]
      _ ≤ (M.toNat + 1) * (C.toNat + 1) :=
          Nat.mul_le_mul (by omega) (by omega)
  · calc ((List.range (s.rightMissionaries + 1).toNat).flatMap _).length
        ≤ (List.range (s.rightMissionaries + 1).toNat).length
            * (s.rightCannibals + 1).toNat := by
          refine length_flatMap_le_of_forall _ _ _ fun m _ => ?_
          calc ((List.range (s.rightCannibals + 1).toNat).filterMap _).length
              ≤ (List.range (s.rightCannibals + 1).toNat).length :=
                List.length_filterMap_le _ _
            _ = (s.rightCannibals + 1).toNat := List.length_range _
      _ = (s.rightMissionaries + 1).toNat * (s.rightCannibals + 1).toNat := by
          rw [List.length_range]
      _ ≤ (M.toNat + 1) * (C.toNat + 1) :=
          Nat.mul_le_mul (by omega) (by omega)

/-- Position of a space member in a `2 * (M+1) * (C+1)` enumeration: the
state is determined by its left-bank counts and the boat side. -/
def encode (M C : Int) (s : State) : Nat :=
  (if s.boatOnLeft then 0 else 1) * ((M.toNat + 1) * (C.toNat + 1))
    + s.leftMissionaries.toNat * (C.toNat + 1) + s.leftCannibals.toNat

/-- On the space, `encode` lands below `2 * (M+1) * (C+1)`. -/
theorem encode_lt {M C : Int} {s : State} (hs : InSpace M C s) :
    encode M C s < 2 * (M.toNat + 1) * (C.toNat + 1) := by
  obtain ⟨hs1, hs2, hs3, hs4, hs5, hs6⟩ := hs
  rw [totalMissionaries] at hs5
  rw [totalCannibals] at hs6
  have hm : s.leftMissionaries.toNat ≤ M.toNat := by omega
  have hc : s.leftCannibals.toNat < C.toNat + 1 := by omega
  have hinner : s.leftMissionaries.toNat * (C.toNat + 1) + s.leftCannibals.toNat
      < (M.toNat + 1) * (C.toNat + 1) := by
    calc s.leftMissionaries.toNat * (C.toNat + 1) + s.leftCannibals.toNat
        < s.leftMissionaries.toNat * (C.toNat + 1) + (C.toNat + 1) :=
          Nat.add_lt_add_left hc _
      _ = (s.leftMissionaries.toNat + 1) * (C.toNat + 1) := by ring
      _ ≤ (M.toNat + 1) * (C.toNat + 1) := Nat.mul_le_mul_right _ (by omega)
  have h2 : 2 * (M.toNat + 1) * (C.toNat + 1)
      = (M.toNat + 1) * (C.toNat + 1) + (M.toNat + 1) * (C.toNat + 1) := by ring
  unfold encode
  rw [h2]
  cases hbb : s.boatOnLeft <;> simp <;> omega

/-- Positional-digit uniqueness: quotient and remainder below the base are
determined by the combined value. -/
theorem digit_eq {K a1 a2 b1 b2 : Nat} (hb1 : b1 < K) (hb2 : b2 < K)
    (h : a1 * K + b1 = a2 * K + b2) : a1 = a2 ∧ b1 = b2 := by
  have ha : a1 = a2 := by
    by_contra hne
    rcases Nat.lt_or_ge a1 a2 with hlt | hge
    · have h1 : (a1 + 1) * K ≤ a2 * K := Nat.mul_le_mul_right _ hlt
      have h1' : a1 * K + K ≤ a2 * K := by
        calc a1 * K + K = (a1 + 1) * K := by ring
          _ ≤ a2 * K := h1
      omega
    · have hgt : a2 < a1 := by omega
      have h1 : (a2 + 1) * K ≤ a1 * K := Nat.mul_le_mul_right _ hgt
      have h1' : a2 * K + K ≤ a1 * K := by
        calc a2 * K + K = (a2 + 1) * K := by ring
          _ ≤ a1 * K := h1
      omega
  subst ha
  omega

/-- On the space, `encode` is injective: equal codes force equal states. -/
theorem encode_inj {M C : Int} {s1 s2 : State} (h1 : InSpace M C s1)
    (h2 : InSpace M C s2) (h : encode M C s1 = encode M C s2) : s1 = s2 := by
  obtain ⟨a1, a2, a3, a4, a5, a6⟩ := h1
  obtain ⟨b1, b2, b3, b4, b5, b6⟩ := h2
  rw [totalMissionaries] at a5 b5
  rw [totalCannibals] at a6 b6
  have ha : s1.leftMissionaries.toNat * (C.toNat + 1) + s1.leftCannibals.toNat
      < (M.toNat + 1) * (C.toNat + 1) := by
    calc s1.leftMissionaries.toNat * (C.toNat + 1) + s1.leftCannibals.toNat
        < s1.leftMissionaries.toNat * (C.toNat + 1) + (C.toNat + 1) := by omega
      _ = (s1.leftMissionaries.toNat + 1) * (C.toNat + 1) := by ring
      _ ≤ (M.toNat + 1) * (C.toNat + 1) := Nat.mul_le_mul_right _ (by omega)
  have hb : s2.leftMissionaries.toNat * (C.toNat + 1) + s2.leftCannibals.toNat
      < (M.toNat + 1) * (C.toNat + 1) := by
    calc s2.leftMissionaries.toNat * (C.toNat + 1) + s2.leftCannibals.toNat
        < s2.leftMissionaries.toNat * (C.toNat + 1) + (C.toNat + 1) := by omega
      _ = (s2.leftMissionaries.toNat + 1) * (C.toNat + 1) := by ring
      _ ≤ (M.toNat + 1) * (C.toNat + 1) := Nat.mul_le_mul_right _ (by omega)
  unfold encode at h
  rw [Nat.add_assoc, Nat.add_assoc] at h
  have hdig := digit_eq ha hb h
  have hboat : s1.boatOnLeft = s2.boatOnLeft := by
    rcases hdig with ⟨hd, _⟩
    cases hc1 : s1.boatOnLeft <;> cases hc2 : s2.boatOnLeft <;>
      rw [hc1, hc2] at hd <;> simp at hd
  have hdig2 := digit_eq (by omega : s1.leftCannibals.toNat < C.toNat + 1)
    (by omega : s2.leftCannibals.toNat < C.toNat + 1) hdig.2
  obtain ⟨hlm, hlc⟩ := hdig2
  obtain ⟨w1, x1, y1, z1, v1⟩ := s1
  obtain ⟨w2, x2, y2, z2, v2⟩ := s2
  simp only at a1 a2 a3 a4 a5 a6 b1 b2 b3 b4 b5 b6 hlm hlc hboat
  simp only [State.mk.injEq]
  refine ⟨by omega, by omega, by omega, by omega, hboat⟩

/-- A duplicate-free list of space members has at most
`2 * (M+1) * (C+1)` entries. -/
theorem nodup_space_length_le {M C : Int} {l : List State} (hd : l.Nodup)
    (hs : ∀ s ∈ l, InSpace M C s) :
    l.length ≤ 2 * (M.toNat + 1) * (C.toNat + 1) := by
  have hmap : (l.map (encode M C)).Nodup :=
    hd.map_on fun x hx y hy hxy => encode_inj (hs x hx) (hs y hy) hxy
  have hsub : l.map (encode M C) ⊆
      List.range (2 * (M.toNat + 1) * (C.toNat + 1)) := by
    intro n hn
    rw [List.mem_map] at hn
    obtain ⟨s, hsl, rfl⟩ := hn
    exact List.mem_range.mpr (encode_lt (hs s hsl))
  have hlen := (List.subperm_of_subset hmap hsub).length_le
  rw [List.length_map, List.length_range] at hlen
  exact hlen

/-- Unfolding equation for one BFS loop iteration. -/
theorem bfs_cons (fuel : Nat) (cur : State) (rest explored : List State) :
    bfs (fuel + 1) (cur :: rest) explored =
      if cur ∈ explored then bfs fuel rest explored
      else if isGoal cur then some (true, cur :: explored)
      else bfs fuel
        (rest ++ (getValidMoves cur).filter fun mv =>
          decide (mv ∉ cur :: explored))
        (cur :: explored) := rfl

/-- Arithmetic of the loop potential: expanding one state consumes one
queue entry, enqueues at most `B` successors, and claims one of the at
most `Sp` slots of the visited set. -/
theorem measure_step {B Sp le lr lf n : Nat} (hel : le + 1 ≤ Sp) (hf : lf ≤ B)
    (hfuel : lr + 1 + (B + 1) * (Sp - le) < n + 1) :
    lr + lf + (B + 1) * (Sp - (le + 1)) < n := by
  have hk : Sp - le = (Sp - (le + 1)) + 1 := by omega
  rw [hk, Nat.mul_add, Nat.mul_one] at hfuel
  omega

/-- The BFS loop runs to completion whenever the fuel exceeds the loop
potential: with the visited set duplicate-free and everything inside the
finite space of totals `M`, `C`, the loop makes fewer iterations than
`queue length + ((M+1)(C+1) + 1) * (free visited slots)`. -/
theorem bfs_completes {M C : Int} :
    ∀ (fuel : Nat) (q e : List State), e.Nodup →
      (∀ s ∈ e, InSpace M C s) → (∀ s ∈ q, InSpace M C s) →
      q.length + ((M.toNat + 1) * (C.toNat + 1) + 1)
          * (2 * (M.toNat + 1) * (C.toNat + 1) - e.length) < fuel →
      ∃ b e', bfs fuel q e = some (b, e') ∧ e'.Nodup ∧
        ∀ s ∈ e', InSpace M C s := by
  intro fuel
  induction fuel with
  | zero => intro q e _ _ _ h; exact absurd h (by omega)
  | succ n ih =>
    intro q e hnd he hq hfuel
    cases q with
    | nil => exact ⟨false, e, rfl, hnd, he⟩
    | cons cur rest =>
      rw [bfs_cons]
      by_cases hmem : cur ∈ e
      · rw [if_pos hmem]
        refine ih rest e hnd he (fun s hs => hq s (List.mem_cons_of_mem _ hs)) ?_
        rw [List.length_cons] at hfuel
        omega
      · rw [if_neg hmem]
        have hcur : InSpace M C cur := hq cur (List.mem_cons_self _ _)
        have hnd' : (cur :: e).Nodup := List.nodup_cons.mpr ⟨hmem, hnd⟩
        have he' : ∀ s ∈ cur :: e, InSpace M C s := by
          intro s hs
          rcases List.mem_cons.mp hs with rfl | hs
          · exact hcur
          · exact he s hs
        by_cases hg : isGoal cur = true
        · rw [if_pos hg]
          exact ⟨true, cur :: e, rfl, hnd', he'⟩
        · rw [if_neg hg]
          refine ih _ _ hnd' he' ?_ ?_
          · intro s hs
            rcases List.mem_append.mp hs with hs | hs
            · exact hq s (List.mem_cons_of_mem _ hs)
            · exact inSpace_of_mem_getValidMoves hcur (List.mem_of_mem_filter hs)
          · have hel : (cur :: e).length ≤ 2 * (M.toNat + 1) * (C.toNat + 1) :=
              nodup_space_length_le hnd' he'
            have hmv : (getValidMoves cur).length ≤ (M.toNat + 1) * (C.toNat + 1) :=
              getValidMoves_length_le hcur
            have hflt : ((getValidMoves cur).filter fun mv =>
                decide (mv ∉ cur :: e)).length ≤ (getValidMoves cur).length :=
              List.length_filter_le _ _
            rw [List.length_append, List.length_cons]
            rw [List.length_cons] at hfuel hel
            exact measure_step (by omega) (hflt.trans hmv) hfuel

/-- Every state in the visited set produced by the BFS loop conserves the
totals `M`, `C`, provided every state already in the queue and the visited
set does; new frontier entries always come from `getValidMoves`, which
conserves the totals. -/
theorem bfs_explored_conserves {M C : Int} :
    ∀ (fuel : Nat) (q e : List State) (b : Bool) (e' : List State),
      (∀ s ∈ q, totalMissionaries s = M ∧ totalCannibals s = C) →
      (∀ s ∈ e, totalMissionaries s = M ∧ totalCannibals s = C) →
      bfs fuel q e = some (b, e') →
      ∀ s ∈ e', totalMissionaries s = M ∧ totalCannibals s = C := by
  intro fuel
  induction fuel with
  | zero => intro q e b e' _ _ h; exact Option.noConfusion h
  | succ n ih =>
    intro q e b e' hq he hrun
    cases q with
    | nil =>
      have hnil : bfs (n + 1) ([] : List State) e = some (false, e) := rfl
      rw [hnil, Option.some_inj, Prod.mk.injEq] at hrun
      obtain ⟨-, rfl⟩ := hrun
      exact he
    | cons cur rest =>
      rw [bfs_cons] at hrun
      by_cases hmem : cur ∈ e
      · rw [if_pos hmem] at hrun
        exact ih rest e b e' (fun s hs => hq s (List.mem_cons_of_mem _ hs)) he hrun
      · rw [if_neg hmem] at hrun
        have hcur := hq cur (List.mem_cons_self _ _)
        have he' : ∀ s ∈ cur :: e,
            totalMissionaries s = M ∧ totalCannibals s = C := by
          intro s hs
          rcases List.mem_cons.mp hs with rfl | hs
          · exact hcur
          · exact he s hs
        by_cases hg : isGoal cur = true
        · rw [if_pos hg, Option.some_inj, Prod.mk.injEq] at hrun
          obtain ⟨-, rfl⟩ := hrun
          exact he'
        · rw [if_neg hg] at hrun
          refine ih _ _ b e' ?_ he' hrun
          intro s hs
          rcases List.mem_append.mp hs with hs | hs
          · exact hq s (List.mem_cons_of_mem _ hs)
          · have ht := totals_of_mem_getValidMoves (List.mem_of_mem_filter hs)
            exact ⟨ht.1.trans hcur.1, ht.2.trans hcur.2⟩

/-- From a non-negative initial state, the fuel bound exceeds the loop
potential, so the search completes within the allotted fuel. -/
theorem solve_total (s : State)
    (h1 : 0 ≤ s.leftMissionaries) (h2 : 0 ≤ s.leftCannibals)
    (h3 : 0 ≤ s.rightMissionaries) (h4 : 0 ≤ s.rightCannibals) :
    ∃ (b : Bool) (explored : List State),
      bfs (fuelBound s) [s] [] = some (b, explored) ∧
      solveMissionariesCannibals s = some b ∧
      explored.Nodup ∧
      explored.length ≤
        2 * ((totalMissionaries s).toNat + 1) * ((totalCannibals s).toNat + 1) := by
  have hrun := bfs_completes (M := totalMissionaries s) (C := totalCannibals s)
    (fuelBound s) [s] [] List.nodup_nil (by intro t ht; cases ht) ?_ ?_
  · obtain ⟨b, e', hrun, hnd, hsp⟩ := hrun
    refine ⟨b, e', hrun, ?_, hnd, nodup_space_length_le hnd hsp⟩
    rw [solveMissionariesCannibals, hrun]
    rfl
  · intro t ht
    rw [List.mem_singleton] at ht
    subst ht
    exact ⟨h1, h2, h3, h4, rfl, rfl⟩
  · simp only [List.length_singleton, List.length_nil, Nat.sub_zero]
    unfold fuelBound stateSpaceSize
    omega

/-! ## The claims -/

/-- Claim C1: from the initial state with 3 missionaries and 3 cannibals on
the left bank, 0 on the right, and the boat on the left,
`solveMissionariesCannibals` returns true (a solution exists and BFS finds
it). -/
theorem solve_three_three_solved :
    solveMissionariesCannibals
      { leftMissionaries := 3, leftCannibals := 3, rightMissionaries := 0,
        rightCannibals := 0, boatOnLeft := true } = some true := by
  decide

/-- Claim C2, counterexample: from the initial state with 4 missionaries
and 4 cannibals on the left bank, `solveMissionariesCannibals` does NOT
return true — the 4/4 puzzle with a two-person boat has no solution. -/
theorem solve_four_four_not_solved :
    solveMissionariesCannibals
      { leftMissionaries := 4, leftCannibals := 4, rightMissionaries := 0,
        rightCannibals := 0, boatOnLeft := true } ≠ some true := by
  decide

/-- Claim C2, amended: from the initial state with 4 missionaries and 4
cannibals on the left bank, 0 on the right, and the boat on the left,
`solveMissionariesCannibals` returns false (the search exhausts the space
without reaching the goal). -/
theorem solve_four_four_no_solution :
    solveMissionariesCannibals
      { leftMissionaries := 4, leftCannibals := 4, rightMissionaries := 0,
        rightCannibals := 0, boatOnLeft := true } = some false := by
  decide

/-- Claim C3: every state in the sequence returned by `getValidMoves`
satisfies `isSafe`. -/
theorem getValidMoves_all_safe (s t : State) (h : t ∈ getValidMoves s) :
    isSafe t = true :=
  isSafe_of_mem_getValidMoves h

/-- Witness for claim C3 at a concrete input: one crossing taking one
cannibal across from the 3/3 start, which is a safe state. -/
theorem getValidMoves_all_safe_witness :
    isSafe ⟨3, 2, 0, 1, false⟩ = true :=
  getValidMoves_all_safe ⟨3, 3, 0, 0, true⟩ ⟨3, 2, 0, 1, false⟩ (by decide)

/-- Claim C4: during a run of the search from any initial state, every
state in the visited set — and every state ever placed on the frontier,
i.e. every output of `getValidMoves` at an expanded state — conserves the
missionary and cannibal totals fixed by the initial configuration. -/
theorem bfs_conservation (s0 : State) (fuel : Nat) (b : Bool)
    (e' : List State) (hrun : bfs fuel [s0] [] = some (b, e')) :
    (∀ t ∈ e', totalMissionaries t = totalMissionaries s0 ∧
        totalCannibals t = totalCannibals s0) ∧
    ∀ t ∈ e', ∀ u ∈ getValidMoves t,
      totalMissionaries u = totalMissionaries s0 ∧
      totalCannibals u = totalCannibals s0 := by
  have hq : ∀ s ∈ [s0], totalMissionaries s = totalMissionaries s0 ∧
      totalCannibals s = totalCannibals s0 := by
    intro s hs
    rw [List.mem_singleton] at hs
    subst hs
    exact ⟨rfl, rfl⟩
  have he : ∀ s ∈ ([] : List State),
      totalMissionaries s = totalMissionaries s0 ∧
      totalCannibals s = totalCannibals s0 := by
    intro s hs
    cases hs
  have hvis := bfs_explored_conserves fuel [s0] [] b e' hq he hrun
  refine ⟨hvis, fun t ht u hu => ?_⟩
  have hstep := totals_of_mem_getValidMoves hu
  have hbase := hvis t ht
  exact ⟨hstep.1.trans hbase.1, hstep.2.trans hbase.2⟩

/-- Witness for claim C4: the search from one missionary alone solves the
puzzle after exploring two states, both conserving the totals. -/
theorem bfs_conservation_witness :
    totalMissionaries ⟨0, 0, 1, 0, false⟩ = totalMissionaries ⟨1, 0, 0, 0, true⟩ ∧
    totalCannibals ⟨0, 0, 1, 0, false⟩ = totalCannibals ⟨1, 0, 0, 0, true⟩ :=
  (bfs_conservation ⟨1, 0, 0, 0, true⟩ (fuelBound ⟨1, 0, 0, 0, true⟩) true
    [⟨0, 0, 1, 0, false⟩, ⟨1, 0, 0, 0, true⟩] (by decide)).1
    ⟨0, 0, 1, 0, false⟩ (by decide)

/-- Claim C5: from every initial state with non-negative counts the search
terminates; the visited set is duplicate-free (each unique state is
inserted and expanded at most once) and has at most `2 * (M+1) * (C+1)`
entries, `M` and `C` the initial missionary and cannibal totals. -/
theorem solveMissionariesCannibals_terminates (s : State)
    (h1 : 0 ≤ s.leftMissionaries) (h2 : 0 ≤ s.leftCannibals)
    (h3 : 0 ≤ s.rightMissionaries) (h4 : 0 ≤ s.rightCannibals) :
    ∃ (b : Bool) (explored : List State),
      bfs (fuelBound s) [s] [] = some (b, explored) ∧
      solveMissionariesCannibals s = some b ∧
      explored.Nodup ∧
      explored.length ≤
        2 * ((totalMissionaries s).toNat + 1) * ((totalCannibals s).toNat + 1) :=
  solve_total s h1 h2 h3 h4

/-- Witness for claim C5 at the 1/1 initial state. -/
theorem solveMissionariesCannibals_terminates_witness :
    ∃ (b : Bool) (explored : List State),
      bfs (fuelBound ⟨1, 1, 0, 0, true⟩) [⟨1, 1, 0, 0, true⟩] []
          = some (b, explored) ∧
      solveMissionariesCannibals ⟨1, 1, 0, 0, true⟩ = some b ∧
      explored.Nodup ∧
      explored.length ≤
        2 * ((totalMissionaries ⟨1, 1, 0, 0, true⟩).toNat + 1)
          * ((totalCannibals ⟨1, 1, 0, 0, true⟩).toNat + 1) :=
  solveMissionariesCannibals_terminates ⟨1, 1, 0, 0, true⟩
    (by decide) (by decide) (by decide) (by decide)

/-- Claim C6: for every state with non-negative counts, `isSafe` returns
true iff on each bank independently either the bank has zero missionaries
or its missionaries are at least its cannibals. -/
theorem isSafe_correct (s : State)
    (h1 : 0 ≤ s.leftMissionaries) (_h2 : 0 ≤ s.leftCannibals)
    (h3 : 0 ≤ s.rightMissionaries) (_h4 : 0 ≤ s.rightCannibals) :
    isSafe s = true ↔
      ((s.leftMissionaries = 0 ∨ s.leftCannibals ≤ s.leftMissionaries) ∧
        (s.rightMissionaries = 0 ∨ s.rightCannibals ≤ s.rightMissionaries)) := by
  rw [isSafe]
  simp only [Bool.and_eq_true, Bool.not_eq_true', Bool.and_eq_false_iff,
    decide_eq_false_iff_not, decide_eq_true_eq, not_not]
  omega

/-- Witness for claim C6 at a concrete state (right bank unsafe: one
missionary outnumbered by two cannibals). -/
theorem isSafe_correct_witness :
    isSafe ⟨2, 1, 1, 2, true⟩ = true ↔
      (((2 : Int) = 0 ∨ (1 : Int) ≤ 2) ∧ ((1 : Int) = 0 ∨ (2 : Int) ≤ 1)) :=
  isSafe_correct ⟨2, 1, 1, 2, true⟩ (by decide) (by decide) (by decide) (by decide)

/-- Claim C7: from the all-zero initial state with the boat on the left,
the search returns false: the initial state fails the goal test (the boat
is still on the left) and the move generator produces no successors, since
every crossing needs at least one occupant. -/
theorem solve_zero_zero_no_solution :
    solveMissionariesCannibals ⟨0, 0, 0, 0, true⟩ = some false ∧
    isGoal ⟨0, 0, 0, 0, true⟩ = false ∧
    getValidMoves ⟨0, 0, 0, 0, true⟩ = [] := by
  refine ⟨by decide, by decide, by decide⟩

/-- Claim C8: no state returned by `getValidMoves` equals its input: the
boat side always flips. -/
theorem getValidMoves_never_identity (s t : State) (h : t ∈ getValidMoves s) :
    t.boatOnLeft = !s.boatOnLeft ∧ t ≠ s :=
  boat_flips_of_mem_getValidMoves h

/-- Witness for claim C8 at a concrete input. -/
theorem getValidMoves_never_identity_witness :
    State.boatOnLeft ⟨3, 2, 0, 1, false⟩ = !State.boatOnLeft ⟨3, 3, 0, 0, true⟩ ∧
    (⟨3, 2, 0, 1, false⟩ : State) ≠ ⟨3, 3, 0, 0, true⟩ :=
  getValidMoves_never_identity ⟨3, 3, 0, 0, true⟩ ⟨3, 2, 0, 1, false⟩ (by decide)

/-- Unfolding of the one-argument branch of the argument handler. -/
theorem initialStateFor_one (x : Int) :
    initialStateFor [x] =
      if x < 0 then none else some ⟨x, 0, 0, 0, true⟩ := rfl

/-- Unfolding of the two-argument branch of the argument handler: the
cannibal count is validated first, then the missionary count. -/
theorem initialStateFor_two (x y : Int) :
    initialStateFor [x, y] =
      if y < 0 then none
      else if x < 0 then none else some ⟨x, y, 0, 0, true⟩ := rfl

/-- Claim C9: a one- or two-argument invocation with a negative count
exits with status 1 without running the search; with all supplied counts
non-negative the search runs to completion and the process exits with
status 0. -/
theorem runMain_spec (x y : Int) :
    (x < 0 → runMain [x] = (1, none)) ∧
    (0 ≤ x → ∃ b, runMain [x] = (0, some (some b))) ∧
    (x < 0 ∨ y < 0 → runMain [x, y] = (1, none)) ∧
    (0 ≤ x → 0 ≤ y → ∃ b, runMain [x, y] = (0, some (some b))) := by
  refine ⟨?_, ?_, ?_, ?_⟩
  · intro hx
    have h : initialStateFor [x] = none := by
      rw [initialStateFor_one, if_pos hx]
    rw [runMain, h]
  · intro hx
    have h : initialStateFor [x] = some ⟨x, 0, 0, 0, true⟩ := by
      rw [initialStateFor_one, if_neg (by omega)]
    obtain ⟨b, e', -, hsolve, -, -⟩ :=
      solve_total ⟨x, 0, 0, 0, true⟩ hx (le_refl 0) (le_refl 0) (le_refl 0)
    refine ⟨b, ?_⟩
    have hr : runMain [x]
        = (0, some (solveMissionariesCannibals ⟨x, 0, 0, 0, true⟩)) := by
      rw [runMain, h]
    rw [hr, hsolve]
  · intro hxy
    rcases le_or_lt 0 y with hy | hy
    · have hx : x < 0 := by omega
      have h : initialStateFor [x, y] = none := by
        rw [initialStateFor_two, if_neg (by omega), if_pos hx]
      rw [runMain, h]
    · have h : initialStateFor [x, y] = none := by
        rw [initialStateFor_two, if_pos hy]
      rw [runMain, h]
  · intro hx hy
    have h : initialStateFor [x, y] = some ⟨x, y, 0, 0, true⟩ := by
      rw [initialStateFor_two, if_neg (by omega), if_neg (by omega)]
    obtain ⟨b, e', -, hsolve, -, -⟩ :=
      solve_total ⟨x, y, 0, 0, true⟩ hx hy (le_refl 0) (le_refl 0)
    refine ⟨b, ?_⟩
    have hr : runMain [x, y]
        = (0, some (solveMissionariesCannibals ⟨x, y, 0, 0, true⟩)) := by
      rw [runMain, h]
    rw [hr, hsolve]

/-- Witness for claim C9: a negative missionary count is rejected with
status 1 and no search, while 2 missionaries and 1 cannibal run the search
and exit with status 0. -/
theorem runMain_spec_witness :
    runMain [-1] = (1, none) ∧
    ∃ b, runMain [2, 1] = (0, some (some b)) :=
  ⟨(runMain_spec (-1) 0).1 (by decide),
    (runMain_spec 2 1).2.2.2 (by decide) (by decide)⟩

/-- Claim C10: invoked with exactly one numeric argument `a ≥ 0`, the
initial state takes its left missionary count from `a` and keeps the left
cannibal count at the member default 0 (not the 3/3 default), with both
right-bank counts 0 and the boat on the left. -/
theorem one_arg_initial_state (a : Int) (h : 0 ≤ a) :
    initialStateFor [a] =
      some { leftMissionaries := a, leftCannibals := 0, rightMissionaries := 0,
             rightCannibals := 0, boatOnLeft := true } := by
  rw [initialStateFor_one, if_neg (by omega)]

/-- Witness for claim C10 at argument 7. -/
theorem one_arg_initial_state_witness :
    initialStateFor [7] = some ⟨7, 0, 0, 0, true⟩ :=
  one_arg_initial_state 7 (by decide)
